import Mathlib

/-!
# Verification of the farebox transit router against its specification

Shallow embedding of the core data model and algorithms of the `farebox`
repository (crates `solari`, `solari-spatial`, `solari-transfers`, and the
legacy `src/` crate), with theorems settling the frozen claims about the
RAPTOR router, the spatial index, the transfer graph builder, and the
timetable builder.

External library calls (s2 cell coverings, chrono timezone conversion, the
Valhalla matrix HTTP client, geodesic distance) are modelled as explicit
parameters of the embedded functions; Rust panics (`unwrap`, out-of-bounds
indexing, `expect`) are modelled by `Option`/`Except` results, with `none`
/ `.error` denoting a panic or error propagation.
-/

namespace Farebox

/-! ## u32 arithmetic and `Time` (src/src/raptor/timetable/mod.rs)

`Time` is a newtype over a `u32` of epoch seconds.  We model `u32` values as
`Nat` together with the bound `≤ u32Max` carried in hypotheses where it
matters. -/

def u32Max : Nat := 4294967295

/-- Rust `u32::checked_add`: `some (a + b)` when the sum fits in 32 bits,
`none` on overflow. -/
def checkedAddU32 (a b : Nat) : Option Nat :=
  if a + b ≤ u32Max then some (a + b) else none

/-- Model of `Time::plus_seconds` (mod.rs lines 304-311):
`self.epoch_seconds.checked_add(seconds).unwrap_or(self.epoch_seconds)`. -/
def plusSeconds (t s : Nat) : Nat :=
  (checkedAddU32 t s).getD t

/-! ## RAPTOR router per-query state (src/solari/src/route.rs, src/src/route.rs)

The two route.rs variants share `InternalStep`, `InternalItinerary`,
`RouterContext`, `best_time_to_target` and `maybe_update_arrival_time_and_route`
verbatim; they differ in the transfer-relaxation loop of `do_round` (the
`solari` variant checks the predecessor step's kind, the legacy `src/` variant
has that check commented out).  Stop, route and trip identifiers are the dense
indices of the timetable columns; epoch times are u32 seconds modelled as
`Nat`. -/

/-- Model of `InternalStepLocation`: either a timetable stop (identified by its dense
index) or a raw coordinate.  The coordinate payload is never branched on in
the routing logic, so it is not carried here. -/
inductive StepLoc where
  | stop (id : Nat)
  | location
deriving DecidableEq, Repr

/-- Model of `InternalItinerary { last_step, final_time }`. -/
structure InternalItinerary where
  lastStep : Nat
  finalTime : Nat
deriving DecidableEq, Repr

/-- Model of `InternalStep`: one entry of the append-only `step_log`. -/
structure InternalStep where
  previousStep : Nat
  fromLoc : StepLoc
  toLoc : StepLoc
  route : Option Nat
  departure : Nat
  arrival : Nat
  trip : Option Nat
deriving DecidableEq, Repr

/-- The per-query mutable state of `RouterContext` that the routing loops
touch (timetable accessors are passed separately as parameters). -/
structure RouterContext where
  bestTimesGlobal : List (Option InternalItinerary)
  bestTimesPerRound : List (List (Option InternalItinerary))
  markedStops : List Bool
  targets : List (Nat × Nat)
  stepLog : List InternalStep
deriving Repr

/-- Model of `RouterContext::best_time_to_target`: minimum over all targets of the
proven best arrival plus the target's final-leg cost. -/
def bestTimeToTarget (ctx : RouterContext) : Option Nat :=
  (ctx.targets.filterMap (fun p =>
      (ctx.bestTimesGlobal.getD p.1 none).map
        (fun best => plusSeconds best.finalTime p.2))).min?

/-- Model of `RouterContext::maybe_update_arrival_time_and_route` (identical in both
route.rs variants): record a new best arrival at a stop when it beats both
the best proven arrival at any target and the stop's own previous best. -/
def maybeUpdate (ctx : RouterContext) (round : Nat) (fromLoc : StepLoc)
    (departureTime : Nat) (toLoc : StepLoc) (arrivalTime : Nat)
    (via : Option Nat) (onTrip : Option Nat) (previousStep : Nat) :
    RouterContext × Bool :=
  match toLoc with
  | .location => (ctx, false)
  | .stop sid =>
    let isBetterThanDestinationGlobal : Bool :=
      match bestTimeToTarget ctx with
      | some best => decide (arrivalTime < best)
      | none => true
    if !isBetterThanDestinationGlobal then (ctx, false)
    else
      let isBestGlobal : Bool :=
        match ctx.bestTimesGlobal.getD sid none with
        | some previousBest => decide (arrivalTime < previousBest.finalTime)
        | none => true
      if isBestGlobal then
        let latestStep : InternalStep :=
          { previousStep := previousStep, fromLoc := fromLoc, toLoc := toLoc,
            route := via, departure := departureTime, arrival := arrivalTime,
            trip := onTrip }
        let it : InternalItinerary :=
          { lastStep := ctx.stepLog.length, finalTime := arrivalTime }
        ({ ctx with
            bestTimesGlobal := ctx.bestTimesGlobal.set sid (some it),
            bestTimesPerRound := ctx.bestTimesPerRound.set round
              ((ctx.bestTimesPerRound.getD round []).set sid (some it)),
            markedStops := ctx.markedStops.set sid true,
            stepLog := ctx.stepLog ++ [latestStep] }, true)
      else (ctx, false)

/-- Transfer relaxation loop of `do_round` in the legacy `src/src/route.rs`
variant (lines 682-722).  `transfersFrom s` lists the `(to, time_seconds)`
transfers of stop `s`; `snapshot` is the clone of `marked_stops` taken after
route scanning.  The predecessor-kind check is commented out in this variant.
`none` models the `.unwrap()` panic on a marked stop with no best time. -/
def relaxTransfersFarebox (transfersFrom : Nat → List (Nat × Nat))
    (snapshot : List Bool) (round : Nat) (ctx : RouterContext) :
    Option RouterContext :=
  (List.range snapshot.length).foldlM (fun c sid =>
    if snapshot.getD sid false then
      (transfersFrom sid).foldlM (fun c2 tr =>
        match c2.bestTimesGlobal.getD sid none with
        | none => none
        | some best =>
          let arrivalAtTransferEnd := plusSeconds best.finalTime tr.2
          some (maybeUpdate c2 round (.stop sid) best.finalTime (.stop tr.1)
            arrivalAtTransferEnd none none best.lastStep).1) c
    else some c) ctx

/-- The kind of a leg produced from an internal step during itinerary
reconstruction: a step with `route = None` becomes a `Transfer` leg, any
other a `Transit` leg. -/
inductive LegKind where
  | transfer
  | transit
deriving DecidableEq, Repr

/-- The backward walk of `route` over `step_log`
(`while context.step_log[step_cursor].previous_step != 0`): collect the steps
of the selected itinerary, last step first, stopping before the step whose
predecessor is the synthetic seed entry 0. -/
def unwindStepsGo (log : List InternalStep) : Nat → Nat → List InternalStep
  | 0, _ => []
  | fuel + 1, cursor =>
    match log.get? cursor with
    | none => []
    | some step =>
      if step.previousStep = 0 then []
      else step :: unwindStepsGo log fuel step.previousStep

/-- The `Transit` / `Transfer` leg kinds of the reconstructed itinerary whose
last step is `lastStep`, in forward order (the emitted steps are reversed
before being turned into legs). -/
def unwindLegKinds (log : List InternalStep) (lastStep : Nat) : List LegKind :=
  ((unwindStepsGo log log.length lastStep).map
    (fun step => if step.route.isNone then LegKind.transfer else LegKind.transit)).reverse

/-! ### Concrete router state reaching the transfer-relaxation loop

Stops `0 = C`, `1 = A`, `2 = B`; `B` is the unique target (`target_costs =
[(2, 0)]`).  In the current round both `C` and `A` were improved by route
scanning (transit arrivals 100 and 500), so the cloned `marked_stops`
snapshot is `[true, true, false]`.  `C` has a 100 s transfer to `A` and `A`
has a 50 s transfer to `B`. -/

/-- The synthetic seed entry `step_log[0]` pushed by `route`. -/
def seedStep : InternalStep :=
  { previousStep := 0, fromLoc := .location, toLoc := .location,
    route := none, departure := 0, arrival := 0, trip := none }

/-- Transit step that reached stop `C` (arrival 100) in the current round. -/
def stepTransitC : InternalStep :=
  { previousStep := 0, fromLoc := .location, toLoc := .stop 0,
    route := some 0, departure := 50, arrival := 100, trip := some 0 }

/-- Transit step that reached stop `A` (arrival 500) in the current round. -/
def stepTransitA : InternalStep :=
  { previousStep := 0, fromLoc := .location, toLoc := .stop 1,
    route := some 0, departure := 50, arrival := 500, trip := some 0 }

/-- Router state immediately before the transfer-relaxation loop of round 1. -/
def exCtx : RouterContext :=
  { bestTimesGlobal := [some ⟨1, 100⟩, some ⟨2, 500⟩, none],
    bestTimesPerRound := [[none, none, none], [none, none, none]],
    markedStops := [true, true, false],
    targets := [(2, 0)],
    stepLog := [seedStep, stepTransitC, stepTransitA] }

/-- The timetable's transfer lists: `C → A` in 100 s, `A → B` in 50 s. -/
def exTransfersFrom : Nat → List (Nat × Nat)
  | 0 => [(1, 100)]
  | 1 => [(2, 50)]
  | _ => []

/-! ## The round loop of `RouterContext::route` (identical in both route.rs
variants, solari lines 926-947, legacy lines 778-799)

`route` only consumes `do_round`'s boolean result ("was any stop marked")
and `best_time_to_target().is_some()`, so the loop is embedded generically
over an opaque round step `doRound : Nat → S → S × Bool` (taking the current
round number and the router state) and a target-reached test
`targetSome : S → Bool`.  The loop is given as a fuel-indexed trace of the
executed rounds: one `(round, target_reached_after_round)` entry per
`do_round` call.  Exhausting the fuel only truncates the trace, so every
upper bound proved for all fuels bounds the real execution. -/

/-- Loop break test: `if let Some(round_bound) = round_bound { if self.round
>= round_bound { break } }`. -/
def atRoundBound (roundBound : Option Nat) (round : Nat) : Bool :=
  match roundBound with
  | some b => decide (round ≥ b)
  | none => false

/-- Round-bound tightening performed after each `do_round` call: when the
target has been reached, `round_bound = Some(old_bound.min(round + delta))`
(only when both `max_transfer_delta` and the current bound are present). -/
def updateRoundBound (targetReached : Bool) (maxTransferDelta roundBound : Option Nat)
    (round : Nat) : Option Nat :=
  if targetReached then
    match maxTransferDelta, roundBound with
    | some d, some b => some (min b (round + d))
    | _, _ => roundBound
  else roundBound

/-- One unrolling of the `while marked_stops` loop of `route`, producing the
trace of executed rounds. -/
def routeTraceGo {S : Type} (doRound : Nat → S → S × Bool) (targetSome : S → Bool)
    (maxTransferDelta : Option Nat) :
    Nat → S → Nat → Option Nat → Bool → List (Nat × Bool)
  | 0, _, _, _, _ => []
  | fuel + 1, s, round, roundBound, marked =>
    if !marked then []
    else if atRoundBound roundBound round then []
    else
      (round, targetSome (doRound round s).1) ::
        routeTraceGo doRound targetSome maxTransferDelta fuel (doRound round s).1
          (round + 1)
          (updateRoundBound (targetSome (doRound round s).1) maxTransferDelta roundBound round)
          (doRound round s).2

/-- The trace of rounds executed by `RouterContext::route`: `round = 0`,
`round_bound = max_transfers`, `marked_stops = true` initially. -/
def routeTrace {S : Type} (doRound : Nat → S → S × Bool) (targetSome : S → Bool)
    (maxTransfers maxTransferDelta : Option Nat) (fuel : Nat) (s : S) :
    List (Nat × Bool) :=
  routeTraceGo doRound targetSome maxTransferDelta fuel s 0 maxTransfers true

/-- Minimal router context with a single reached, marked stop (used to
witness the `maybe_update` invariants). -/
def ctx0 : RouterContext :=
  { bestTimesGlobal := [some ⟨0, 5⟩],
    bestTimesPerRound := [[none]],
    markedStops := [true],
    targets := [],
    stepLog := [seedStep] }

/-! ## Sphere index (src/solari-spatial/src/lib.rs)

`SphereIndex::nearest_neighbors` (lines 26-79) computes an s2 cell covering
of a bounding rectangle derived from `max_radius_meters`, and for each
covering cell binary-searches the sorted `cells` array for the positions of
the cell's `child_begin`/`child_end` ids; the slice between the two
positions is pushed verbatim with the distance from the query to each
candidate cell's center.  The s2 library calls are parameters of the
embedding: `covering` is the list of `(child_begin, child_end)` cell-id
pairs of the (sorted) covering, and `centerDist c` is the great-circle
center distance (in meters, as a rational) of cell id `c` from the query
point.  The payload type `D` is instantiated at `usize` throughout the
repository, so payloads are `Nat` here.  `none` models an out-of-bounds
indexing panic. -/

/-- Model of Rust `slice::binary_search` (the standard halving loop;
`.ok i` with `cells[i] = key`, or `.error n` with `n` the insertion point).
The fuel only needs to exceed the iteration count, which is at most
`cells.length + 1` since the interval shrinks every step. -/
def binarySearchGo (cells : List Nat) (key : Nat) : Nat → Nat → Nat → Except Nat Nat
  | 0, left, _ => .error left
  | fuel + 1, left, right =>
    if left < right then
      if cells.getD (left + (right - left) / 2) 0 < key then
        binarySearchGo cells key fuel (left + (right - left) / 2 + 1) right
      else if key < cells.getD (left + (right - left) / 2) 0 then
        binarySearchGo cells key fuel left (left + (right - left) / 2)
      else .ok (left + (right - left) / 2)
    else .error left

/-- Model of `cells.binary_search(&key)` over the whole slice. -/
def binarySearch (cells : List Nat) (key : Nat) : Except Nat Nat :=
  binarySearchGo cells key (cells.length + 1) 0 cells.length

/-- Candidate slice endpoint for one covering-cell id:
`match binary_search { Ok(found) => found, Err(n) => n.saturating_sub(1) }`
(lines 59-66). -/
def childIndex (cells : List Nat) (key : Nat) : Nat :=
  match binarySearch cells key with
  | .ok found => found
  | .error notFound => notFound - 1

/-- Model of `NearestNeighborResult { approx_distance_meters, data }`. -/
structure NNResult where
  approxDistanceMeters : ℚ
  data : Nat
deriving DecidableEq, Repr

/-- Model of `nearest_neighbors` after the covering has been computed and
sorted: for each covering cell, push the candidates of the inclusive slice
`child_begin_index ..= child_end_index` with their cell-center distances
(lines 57-78).  No filtering against `max_radius_meters` and no sorting of
the result happens in the source. -/
def nearestNeighbors (covering : List (Nat × Nat)) (centerDist : Nat → ℚ)
    (cells : List Nat) (data : List Nat) : Option (List NNResult) :=
  covering.foldlM (fun acc cell =>
    (((List.range' (childIndex cells cell.1)
        (childIndex cells cell.2 + 1 - childIndex cells cell.1)).mapM (fun i =>
      match cells.get? i, data.get? i with
      | some c, some d => some (⟨centerDist c, d⟩ : NNResult)
      | _, _ => none)).map (fun l => acc ++ l))) []

/-- Stable insertion of `x` into `l`: `x` goes before the first element it
compares `le` to (so earlier elements of the original list stay first among
equals). -/
def insertBy {α : Type} (le : α → α → Bool) (x : α) : List α → List α
  | [] => [x]
  | y :: ys => if le x y then x :: y :: ys else y :: insertBy le x ys

/-- Stable sort by `le` (insertion sort).  Rust's stable `sort_by_cached_key`
is extensionally the unique stable sort, and for distinct keys every sort
including the unstable `sort_unstable_by_key` agrees with it. -/
def insertionSortBy {α : Type} (le : α → α → Bool) : List α → List α
  | [] => []
  | x :: xs => insertBy le x (insertionSortBy le xs)

/-- Model of `SphereIndexVec::build` (lines 98-104): sort the points by cell
id and split into the parallel `cells` / `data` arrays. -/
def sphereIndexVecBuild (points : List (Nat × Nat)) : List Nat × List Nat :=
  ((insertionSortBy (fun a b => decide (a.1 ≤ b.1)) points).map Prod.fst,
   (insertionSortBy (fun a b => decide (a.1 ≤ b.1)) points).map Prod.snd)

/-! ## Transfer graph edge tables (src/solari-transfers/src/lib.rs)

`push_edge` (lines 218-243) consults the `(from, to) → length` table
`EDGE_LENGTH_TABLE` and stores the polyline into `EDGE_SHAPE_TABLE`.  The
two redb tables are modelled as association lists with newest-first lookup
(redb `insert` overwrites); polylines are stored as coordinate lists, since
the polyline encoding is an external, injective transformation.  Note that
nothing in the crate ever inserts into `EDGE_LENGTH_TABLE`. -/

/-- State of the `graph_metadata.db` tables `valhalla_edge_lengths` and
`valhalla_edge_shapes`. -/
structure GraphTables where
  lengths : List ((Nat × Nat) × ℚ)
  shapes : List ((Nat × Nat) × List (ℚ × ℚ))
deriving DecidableEq, Repr

/-- Table lookup (`table.get(&key)`): the most recently inserted value. -/
def tableGet {α : Type} (tbl : List ((Nat × Nat) × α)) (k : Nat × Nat) : Option α :=
  (tbl.find? (fun e => e.1 == k)).map (fun e => e.2)

/-- Table insert (`table.insert(&key, value)`): overwrite semantics. -/
def tableInsert {α : Type} (tbl : List ((Nat × Nat) × α)) (k : Nat × Nat) (v : α) :
    List ((Nat × Nat) × α) :=
  (k, v) :: tbl

/-- Model of `TransferGraph::push_edge`: read the stored length for
`(from, to)`; insert the shape when the new length is strictly shorter or no
length is stored.  The length table itself is never written (faithful to the
source, where no `lengths.insert` exists anywhere). -/
def pushEdge (t : GraphTables) (fromNode toNode : Nat) (length : ℚ)
    (shape : List (ℚ × ℚ)) : GraphTables × Bool :=
  match tableGet t.lengths (fromNode, toNode) with
  | some previousLen =>
    if length < previousLen then
      ({ t with shapes := tableInsert t.shapes (fromNode, toNode) shape }, true)
    else (t, false)
  | none => ({ t with shapes := tableInsert t.shapes (fromNode, toNode) shape }, true)

/-! ## Service-day expansion (src/src/raptor/timetable/in_memory.rs 374-411)

For each day offset `≤ 14`, `preprocess_gtfs` converts noon of the service
day to the agency timezone with chrono's `from_local_datetime`, whose result
is modelled by `ChronoLocalResult`; the conversion itself is the external
parameter `localNoon : day ↦ result`, returning the instants as epoch
seconds.  The service day start is the converted noon minus 12 h
(43200 s). -/

/-- Model of chrono's `LocalResult<DateTime<Tz>>`. -/
inductive ChronoLocalResult where
  | single (t : Int)
  | ambiguous (earliest latest : Int)
  | gap
deriving DecidableEq, Repr

/-- Service-day-start computation for one day (in_memory.rs 383-402):
`Single` and `Ambiguous` (earlier instant) succeed, a nonexistent local time
(`LocalResult::None`) hits `bail!`, which aborts `preprocess_gtfs`. -/
def serviceDayStart (localNoon : Nat → ChronoLocalResult) (day : Nat) :
    Except String Int :=
  match localNoon day with
  | .single t => .ok (t - 43200)
  | .ambiguous a _ => .ok (a - 43200)
  | .gap => .error "Gap in time (at noon), cannot determine service day start"

/-- The `for day in trip_days` loop of `preprocess_gtfs`: collect the
service-day starts of all day offsets `≤ 14`; the `bail!` propagates as an
`Except.error`, dropping all remaining days (and, in the source, the whole
feed). -/
def expandTripDays (localNoon : Nat → ChronoLocalResult) (tripDays : List Nat) :
    Except String (List Int) :=
  tripDays.foldlM (fun acc day =>
    if day ≤ 14 then
      match serviceDayStart localNoon day with
      | .ok sds => .ok (acc ++ [sds])
      | .error e => .error e
    else .ok acc) []

/-- A concrete timezone behaviour: days 0 and 2 convert normally, day 1
falls in a DST gap. -/
def exLocalNoon : Nat → ChronoLocalResult
  | 0 => .single 1000000
  | 1 => .gap
  | 2 => .single 3000000
  | _ => .single 0

/-! ## Query-time target costs (src/src/route.rs 90-140)

With a Valhalla endpoint configured, `route` sends a matrix request and
calls `.unwrap()` on its result; the HTTP call is the external parameter
`matrixResponseRow` (the `sources_to_targets[0]` row).  Without an endpoint
it computes `(FAKE_WALK_SPEED_SECONDS_PER_METER * great_circle_rad * R) as
u32` per target stop; the geodesic angle of each stop from the target
location is supplied with the stop.  `none` models a panic (`unwrap` of the
failed request, `from_index.unwrap()`, or indexing `target_stops` out of
bounds). -/

/-- One line item of the matrix response. -/
structure MatrixLineItem where
  fromIndex : Option Nat
  toIndex : Option Nat
  time : Option Nat
deriving DecidableEq, Repr

/-- Model of `FAKE_WALK_SPEED_SECONDS_PER_METER = 2.0`. -/
def fakeWalkSpeedSecondsPerMeter : ℚ := 2

/-- Model of `EARTH_RADIUS_APPROX = 6_371_000`. -/
def earthRadiusApprox : ℚ := 6371000

/-- The `target_costs` computation of the legacy `route`: each target stop
is given as `(stop id, great-circle angle to the target in radians)`. -/
def routeTargetCosts (valhallaEndpoint : Option String)
    (matrixResponseRow : Except String (List MatrixLineItem))
    (targetStops : List (Nat × ℚ)) : Option (List (Nat × Nat)) :=
  match valhallaEndpoint with
  | some _ =>
    match matrixResponseRow with
    | .error _ => none
    | .ok lineItems =>
      (lineItems.mapM (fun item =>
        if item.toIndex.isSome && item.time.isSome then
          match item.fromIndex with
          | none => none
          | some fi =>
            match targetStops.get? fi, item.time with
            | some stop, some t => some (some (stop.1, t))
            | _, _ => none
        else some none)).map (List.filterMap id)
  | none =>
    some (targetStops.map (fun stop =>
      (stop.1,
        (⌊fakeWalkSpeedSecondsPerMeter * stop.2 * earthRadiusApprox⌋).toNat)))

/-! ## Trip sorting in the timetable builder
(src/src/raptor/timetable/in_memory.rs)

`process_routes_trips` (lines 430-459) sorts each route's `trip_list` with
`sort_by_cached_key(|trip| trip.get_departure())`, a stable sort keyed by
`Option<DateTime<Tz>>` (`None` sorts before every `Some`); `process_trip`
then emits `(service_day_start + departure_time.unwrap_or(u32::MAX))
.timestamp() as u32` for each stop time.  `DateTime` values are modelled as
epoch seconds (`Int`); `as u32` is truncation modulo `2^32`. -/

/-- The fields of a parsed GTFS stop time used here (both are optional in
GTFS; intermediate stop times may carry no times at all). -/
structure GtfsStopTime where
  arrivalTime : Option Nat
  departureTime : Option Nat
deriving DecidableEq, Repr

/-- Model of the builder's `TripInternal`: the trip's service-day start and
its raw stop times. -/
structure TripInternal where
  serviceDayStart : Int
  stopTimes : List GtfsStopTime
deriving DecidableEq, Repr

/-- Model of `TripInternal::get_departure` (lines 171-186): `None` when there
is no first stop time, its departure is absent, or it is the `u32::MAX`
sentinel; otherwise the absolute departure instant at the first stop. -/
def TripInternal.getDeparture (t : TripInternal) : Option Int :=
  match t.stopTimes.head? with
  | none => none
  | some st =>
    match st.departureTime with
    | none => none
    | some d => if d = 4294967295 then none else some (t.serviceDayStart + d)

/-- Rust's `Option` ordering: `None` is less than every `Some`. -/
def optIntLe : Option Int → Option Int → Bool
  | none, _ => true
  | some _, none => false
  | some a, some b => decide (a ≤ b)

/-- The sort key comparison of `sort_by_cached_key(|trip| trip.get_departure())`. -/
def tripLe (a b : TripInternal) : Bool :=
  optIntLe a.getDeparture b.getDeparture

/-- The departure time at stop sequence 0 emitted by `process_trip` (lines
506-517): `(service_day_start + departure_time.unwrap_or(u32::MAX))
.timestamp() as u32`; `none` when the trip has no stop times (then no first
stop exists). -/
def emittedFirstStopDeparture (t : TripInternal) : Option Nat :=
  t.stopTimes.head?.map (fun st =>
    ((t.serviceDayStart + ((st.departureTime.getD 4294967295 : Nat) : Int)) % 4294967296).toNat)

/-- First-stop departures of a route's `route_trips` window in emitted
order: the trip list stably sorted by `get_departure`, mapped to the stored
u32 departure at the first stop. -/
def processRouteTripsFirstDepartures (trips : List TripInternal) : List (Option Nat) :=
  (insertionSortBy tripLe trips).map emittedFirstStopDeparture

/-- A trip on a late service day whose first stop time has no departure
(GTFS permits this for interpolated stop times): its sort key is `None`. -/
def tripA : TripInternal := ⟨2000000000, [⟨none, none⟩]⟩

/-- A trip on an earlier service day with an ordinary departure 100 s after
service-day start. -/
def tripB : TripInternal := ⟨1000000000, [⟨some 100, some 100⟩]⟩

/-- A trip on the late service day with an ordinary departure (used for the
sortedness witness). -/
def tripC : TripInternal := ⟨2000000000, [⟨some 50, some 50⟩]⟩

end Farebox

open Farebox

/-- C10: `Time::plus_seconds` returns `t + s` when the u32 addition does not
overflow, and returns `t` unchanged (neither wrapped nor saturated) when it
overflows. -/
theorem c10_plus_seconds (t s : Nat) (ht : t ≤ Farebox.u32Max)
    (hs : s ≤ Farebox.u32Max) :
    (t + s ≤ Farebox.u32Max → Farebox.plusSeconds t s = t + s) ∧
    (Farebox.u32Max < t + s → Farebox.plusSeconds t s = t) := by
  constructor
  · intro h
    simp [Farebox.plusSeconds, Farebox.checkedAddU32, h]
  · intro h
    simp [Farebox.plusSeconds, Farebox.checkedAddU32, Nat.not_le.mpr h]

/-- C1: in the legacy `src/src/route.rs` variant of `do_round` the
"Don't transfer twice in a row" check is commented out (lines 698-701), so
the router can chain two transfers: from the concrete state `exCtx` the
transfer-relaxation loop first improves stop 1 via the transfer 0 → 1 and
then, processing stop 1 from the marked snapshot, relaxes the transfer
1 → 2 on top of it.  The itinerary returned for the unique target stop 2
unwinds to the legs `[Transfer, Transfer]` — two consecutive `Transfer`
legs, contradicting the claim. -/
theorem c1_consecutive_transfer_legs :
    (Farebox.relaxTransfersFarebox Farebox.exTransfersFrom [true, true, false]
        1 Farebox.exCtx).map
      (fun c => match c.bestTimesGlobal.getD 2 none with
        | some it => Farebox.unwindLegKinds c.stepLog it.lastStep
        | none => []) =
      some [Farebox.LegKind.transfer, Farebox.LegKind.transfer] := by
  decide

/-- Witness for C10 at concrete inputs. -/
theorem c10_plus_seconds_witness :
    (7 ≤ Farebox.u32Max ∧ Farebox.plusSeconds 3 4 = 3 + 4) ∧
    (Farebox.u32Max < 4294967290 + 10 ∧
      Farebox.plusSeconds 4294967290 10 = 4294967290) := by
  refine ⟨⟨by decide, (c10_plus_seconds 3 4 (by decide) (by decide)).1 (by decide)⟩,
    ⟨by decide, (c10_plus_seconds 4294967290 10 (by decide) (by decide)).2 (by decide)⟩⟩

/-- Helper: the round bound never increases when tightened. -/
theorem updateRoundBound_some_le (t : Bool) (delta : Option Nat) (b round : Nat) :
    ∃ b2, updateRoundBound t delta (some b) round = some b2 ∧ b2 ≤ b := by
  cases t with
  | false => exact ⟨b, rfl, Nat.le_refl b⟩
  | true =>
    cases delta with
    | none => exact ⟨b, rfl, Nat.le_refl b⟩
    | some d => exact ⟨min b (round + d), rfl, Nat.min_le_left _ _⟩

/-- Helper: with `round_bound = Some b`, the loop executes at most
`b - round` further rounds. -/
theorem routeTraceGo_length_le {S : Type} (doRound : Nat → S → S × Bool)
    (targetSome : S → Bool) (delta : Option Nat) :
    ∀ (fuel : Nat) (s : S) (round b : Nat) (marked : Bool),
      (routeTraceGo doRound targetSome delta fuel s round (some b) marked).length
        ≤ b - round := by
  intro fuel
  induction fuel with
  | zero => intro s round b marked; simp [routeTraceGo]
  | succ n ih =>
    intro s round b marked
    rw [routeTraceGo]
    split
    · simp
    · split
      · simp
      · rename_i hm hb
        have hrb : round < b := by
          simp [atRoundBound] at hb
          omega
        simp only [List.length_cons]
        obtain ⟨b2, heq, hle⟩ :=
          updateRoundBound_some_le (targetSome (doRound round s).1) delta b round
        rw [heq]
        have := ih (doRound round s).1 (round + 1) b2 (doRound round s).2
        omega

/-- Helper: if the `i`-th executed round ends with the target reached, at
most `d` further rounds run after it. -/
theorem routeTraceGo_target_bound {S : Type} (doRound : Nat → S → S × Bool)
    (targetSome : S → Bool) (d : Nat) :
    ∀ (fuel : Nat) (s : S) (round b : Nat) (marked : Bool) (i r : Nat),
      (routeTraceGo doRound targetSome (some d) fuel s round (some b) marked).get? i
          = some (r, true) →
      (routeTraceGo doRound targetSome (some d) fuel s round (some b) marked).length
          ≤ i + 1 + d := by
  intro fuel
  induction fuel with
  | zero => intro s round b marked i r h; simp [routeTraceGo] at h
  | succ n ih =>
    intro s round b marked i r h
    rw [routeTraceGo] at h ⊢
    split at h
    · simp at h
    · split at h
      · simp at h
      · rename_i hm hb
        rw [if_neg hm, if_neg hb]
        cases i with
        | zero =>
          simp only [List.get?_cons_zero, Option.some_inj] at h
          have ht : targetSome (doRound round s).1 = true := by
            have := congrArg Prod.snd h
            simpa using this
          have heq : updateRoundBound (targetSome (doRound round s).1) (some d)
              (some b) round = some (min b (round + d)) := by
            rw [ht]; rfl
          simp only [List.length_cons, heq]
          have := routeTraceGo_length_le doRound targetSome (some d) n
            (doRound round s).1 (round + 1) (min b (round + d)) (doRound round s).2
          have hle : min b (round + d) ≤ round + d := Nat.min_le_right _ _
          omega
        | succ j =>
          simp only [List.get?_cons_succ] at h
          simp only [List.length_cons]
          obtain ⟨b2, heq, hle⟩ :=
            updateRoundBound_some_le (targetSome (doRound round s).1) (some d) b round
          rw [heq] at h ⊢
          have := ih (doRound round s).1 (round + 1) b2 (doRound round s).2 j r h
          omega

/-- C5: with `max_transfers = some m` and `max_transfer_delta = some d`
supplied, `RouterContext::route` executes at most `m + d` rounds (in fact at
most `m`, as the bound only ever shrinks from its initial value `m`); and if
the `i`-th executed round ends with some target reached
(`best_time_to_target().is_some()`), at most `d` further rounds are executed
(the whole trace has length at most `i + 1 + d`).  Stated for every round
behaviour `doRound`, every target test `targetSome` and every fuel; the fuel
only truncates the trace, so the bounds cover the real loop. -/
theorem c5_route_round_bound {S : Type} (doRound : Nat → S → S × Bool)
    (targetSome : S → Bool) (m d fuel : Nat) (s : S) :
    (routeTrace doRound targetSome (some m) (some d) fuel s).length ≤ m + d ∧
    (∀ i r,
      (routeTrace doRound targetSome (some m) (some d) fuel s).get? i = some (r, true) →
      (routeTrace doRound targetSome (some m) (some d) fuel s).length ≤ i + 1 + d) := by
  constructor
  · have h := routeTraceGo_length_le doRound targetSome (some d) fuel s 0 m true
    have : (routeTrace doRound targetSome (some m) (some d) fuel s).length ≤ m - 0 := h
    omega
  · intro i r h
    exact routeTraceGo_target_bound doRound targetSome d fuel s 0 m true i r h

/-- Witness for C5: a round behaviour that reaches the target in round 0
with `m = 2`, `d = 1` executes exactly one round. -/
theorem c5_route_round_bound_witness :
    ((routeTrace (fun (_ : Nat) (_ : Unit) => ((), true)) (fun _ => true)
        (some 2) (some 1) 5 ()).get? 0 = some (0, true)) ∧
    (routeTrace (fun (_ : Nat) (_ : Unit) => ((), true)) (fun _ => true)
        (some 2) (some 1) 5 ()).length ≤ 0 + 1 + 1 :=
  ⟨by decide, (c5_route_round_bound (fun _ _ => ((), true)) (fun _ => true) 2 1 5 ()).2
    0 0 (by decide)⟩

/-- C9: `maybe_update_arrival_time_and_route` (a) replaces a stop's
`best_times_global` entry only with an entry of strictly earlier arrival
time and never turns a `Some` entry into `None` (so each stop's proven best
arrival is non-increasing over the search), and (b) preserves the invariant
that every stop marked in `marked_stops` has a `Some` entry in
`best_times_global` (assuming the two per-stop vectors have the common
length `stop_count`). -/
theorem c9_maybe_update_invariants (ctx : RouterContext) (round : Nat)
    (fromLoc toLoc : StepLoc) (dep arr : Nat) (via onTrip : Option Nat) (prev : Nat)
    (hlen : ctx.markedStops.length = ctx.bestTimesGlobal.length) :
    (∀ s old, ctx.bestTimesGlobal.getD s none = some old →
      ∃ new, (maybeUpdate ctx round fromLoc dep toLoc arr via onTrip
          prev).1.bestTimesGlobal.getD s none = some new ∧
        (new = old ∨ new.finalTime < old.finalTime)) ∧
    ((∀ s, ctx.markedStops.getD s false = true →
        (ctx.bestTimesGlobal.getD s none).isSome) →
      ∀ s, (maybeUpdate ctx round fromLoc dep toLoc arr via onTrip
          prev).1.markedStops.getD s false = true →
        ((maybeUpdate ctx round fromLoc dep toLoc arr via onTrip
          prev).1.bestTimesGlobal.getD s none).isSome) := by
  unfold maybeUpdate
  cases toLoc with
  | location => exact ⟨fun s old h => ⟨old, h, Or.inl rfl⟩, fun h => h⟩
  | stop sid =>
    simp only
    split
    · exact ⟨fun s old h => ⟨old, h, Or.inl rfl⟩, fun h => h⟩
    · split
      · constructor
        · intro s old h
          by_cases hs : sid = s
          · subst hs
            have hlt : sid < ctx.bestTimesGlobal.length := by
              by_contra hge
              rw [List.getD_eq_getElem?_getD,
                List.getElem?_eq_none (Nat.le_of_not_lt hge)] at h
              simp at h
            refine ⟨⟨ctx.stepLog.length, arr⟩, ?_, ?_⟩
            · simp [List.getD_eq_getElem?_getD, List.getElem?_set_self hlt]
            · right
              rename_i hbest
              rw [h] at hbest
              simpa using hbest
          · refine ⟨old, ?_, Or.inl rfl⟩
            simpa [List.getD_eq_getElem?_getD, List.getElem?_set_ne hs] using h
        · intro hinv s hmark
          by_cases hs : sid = s
          · subst hs
            by_cases hlt : sid < ctx.bestTimesGlobal.length
            · simp [List.getD_eq_getElem?_getD, List.getElem?_set_self hlt]
            · have hge : ctx.bestTimesGlobal.length ≤ sid := Nat.le_of_not_lt hlt
              have hgem : ctx.markedStops.length ≤ sid := by omega
              rw [List.set_eq_of_length_le hgem] at hmark
              rw [List.set_eq_of_length_le hge]
              exact hinv sid hmark
          · have hmark' : ctx.markedStops.getD s false = true := by
              rw [List.getD_eq_getElem?_getD] at hmark ⊢
              rwa [List.getElem?_set_ne hs] at hmark
            have hsome := hinv s hmark'
            rw [List.getD_eq_getElem?_getD, List.getElem?_set_ne hs]
            rwa [List.getD_eq_getElem?_getD] at hsome
      · exact ⟨fun s old h => ⟨old, h, Or.inl rfl⟩, fun h => h⟩

/-- Witness for C9: updating stop 0 of `ctx0` (previous best 5) with arrival
3 yields a strictly earlier `Some` entry. -/
theorem c9_maybe_update_invariants_witness :
    ctx0.markedStops.length = ctx0.bestTimesGlobal.length ∧
    ∃ new, (maybeUpdate ctx0 0 .location 0 (.stop 0) 3 none none
        0).1.bestTimesGlobal.getD 0 none = some new ∧
      (new = ⟨0, 5⟩ ∨ new.finalTime < (⟨0, 5⟩ : InternalItinerary).finalTime) :=
  ⟨by decide,
    (c9_maybe_update_invariants ctx0 0 .location (.stop 0) 0 3 none none 0
      (by decide)).1 0 ⟨0, 5⟩ (by decide)⟩

/-- Helper: `binary_search` on a slice of length `right ≤ cells.length`
returns an `ok` index below the length and an `error` insertion point of at
most the length. -/
theorem binarySearchGo_bounds (cells : List Nat) (key : Nat) :
    ∀ (fuel left right : Nat), left ≤ right → right ≤ cells.length →
      (∀ i, binarySearchGo cells key fuel left right = .ok i → i < cells.length) ∧
      (∀ n, binarySearchGo cells key fuel left right = .error n → n ≤ cells.length) := by
  intro fuel
  induction fuel with
  | zero =>
    intro left right h1 h2
    refine ⟨fun i h => by simp [binarySearchGo] at h, fun n h => ?_⟩
    simp [binarySearchGo] at h
    omega
  | succ m ih =>
    intro left right h1 h2
    rw [binarySearchGo]
    split
    · rename_i hlr
      split
      · exact ih (left + (right - left) / 2 + 1) right (by omega) h2
      · split
        · exact ih left (left + (right - left) / 2) (by omega) (by omega)
        · refine ⟨fun i h => ?_, fun n h => by simp at h⟩
          simp only [Except.ok.injEq] at h
          omega
    · rename_i hlr
      refine ⟨fun i h => by simp at h, fun n h => ?_⟩
      simp only [Except.error.injEq] at h
      omega

/-- Helper: on a nonempty cells array every candidate-slice endpoint is in
bounds (this is exactly what fails on the empty index, claim C3). -/
theorem childIndex_lt (cells : List Nat) (key : Nat) (hne : cells ≠ []) :
    childIndex cells key < cells.length := by
  have hlen : 0 < cells.length := List.length_pos.mpr hne
  have hb := binarySearchGo_bounds cells key (cells.length + 1) 0 cells.length
    (Nat.zero_le _) (Nat.le_refl _)
  rw [childIndex, binarySearch]
  cases h : binarySearchGo cells key (cells.length + 1) 0 cells.length with
  | ok i => exact hb.1 i h
  | error n =>
    have hn := hb.2 n h
    show n - 1 < cells.length
    omega

/-- Helper: an option-valued `mapM` over inputs on which the function always
succeeds returns `some`, and members of the output come from members of the
input. -/
theorem mapM_some_of_forall {α β : Type} (f : α → Option β) :
    ∀ (l : List α), (∀ a ∈ l, ∃ b, f a = some b) →
      ∃ l2, l.mapM f = some l2 ∧ ∀ b ∈ l2, ∃ a ∈ l, f a = some b := by
  intro l
  induction l with
  | nil => intro _; exact ⟨[], rfl, by simp⟩
  | cons x xs ih =>
    intro h
    obtain ⟨b, hb⟩ := h x (List.mem_cons_self x xs)
    obtain ⟨l2, hl2, hmem⟩ := ih (fun a ha => h a (List.mem_cons_of_mem x ha))
    refine ⟨b :: l2, ?_, ?_⟩
    · rw [List.mapM_cons, hb, hl2]
      rfl
    · intro c hc
      rcases List.mem_cons.mp hc with hc | hc
      · exact ⟨x, List.mem_cons_self x xs, hc ▸ hb⟩
      · obtain ⟨a, ha, hfa⟩ := hmem c hc
        exact ⟨a, List.mem_cons_of_mem x ha, hfa⟩

/-- C2 counterexample: on the index built from the single point with cell id
100 and payload 0, a query whose covering cell spans child ids 50-150 and
whose candidate lies 999 m from the query returns that candidate even though
`max_radius_meters = 10`: `nearest_neighbors` never compares the computed
distance against the radius (and never sorts), so the claimed
"distance ≤ max_radius_meters" postcondition is false. -/
theorem c2_radius_filter_counterexample :
    nearestNeighbors [(50, 150)] (fun _ => 999)
        (sphereIndexVecBuild [(100, 0)]).1 (sphereIndexVecBuild [(100, 0)]).2
      = some [⟨999, 0⟩] ∧ ¬((999 : ℚ) ≤ 10) := by
  constructor
  · rfl
  · norm_num

/-- C2 amended: every result returned by `nearest_neighbors` is an entry of
the index paired with its cell-center distance; the slice arithmetic never
reads out of bounds on a nonempty index of equal-length columns.  (No radius
filter and no distance sort are applied; results appear in covering order
and, within one covering cell, in index order.) -/
theorem c2_results_from_index (covering : List (Nat × Nat)) (centerDist : Nat → ℚ)
    (cells data : List Nat) (hlen : cells.length = data.length) (hne : cells ≠ []) :
    ∃ l, nearestNeighbors covering centerDist cells data = some l ∧
      ∀ r ∈ l, r.data ∈ data := by
  unfold nearestNeighbors
  suffices h : ∀ acc : List NNResult, (∀ r ∈ acc, r.data ∈ data) →
      ∃ l, covering.foldlM (fun acc cell =>
        (((List.range' (childIndex cells cell.1)
            (childIndex cells cell.2 + 1 - childIndex cells cell.1)).mapM (fun i =>
          match cells.get? i, data.get? i with
          | some c, some d => some (⟨centerDist c, d⟩ : NNResult)
          | _, _ => none)).map (fun l => acc ++ l))) acc = some l ∧
        ∀ r ∈ l, r.data ∈ data by
    exact h [] (by simp)
  induction covering with
  | nil => intro acc hacc; exact ⟨acc, rfl, hacc⟩
  | cons cell rest ih =>
    intro acc hacc
    have hforall : ∀ i ∈ List.range' (childIndex cells cell.1)
        (childIndex cells cell.2 + 1 - childIndex cells cell.1),
        ∃ b, (match cells.get? i, data.get? i with
          | some c, some d => some (⟨centerDist c, d⟩ : NNResult)
          | _, _ => none) = some b := by
      intro i hi
      have hile : i < cells.length := by
        have h2 := childIndex_lt cells cell.2 hne
        have := List.mem_range'.mp hi
        omega
      have hc : ∃ c, cells.get? i = some c := ⟨_, List.get?_eq_get hile⟩
      have hd : ∃ d, data.get? i = some d := ⟨_, List.get?_eq_get (hlen ▸ hile)⟩
      obtain ⟨c, hc⟩ := hc
      obtain ⟨d, hd⟩ := hd
      exact ⟨⟨centerDist c, d⟩, by rw [hc, hd]⟩
    obtain ⟨l2, hl2, hmem⟩ := mapM_some_of_forall _ _ hforall
    have hacc2 : ∀ r ∈ acc ++ l2, r.data ∈ data := by
      intro r hr
      rcases List.mem_append.mp hr with hr | hr
      · exact hacc r hr
      · obtain ⟨i, hi, hfi⟩ := hmem r hr
        split at hfi
        · rename_i c d hc hd
          cases hfi
          simp only
          exact List.get?_mem hd
        · simp at hfi
    obtain ⟨l, hl, hlm⟩ := ih (acc ++ l2) hacc2
    refine ⟨l, ?_, hlm⟩
    rw [List.foldlM_cons, hl2]
    simpa using hl

/-- Witness for C2 (amended) on a concrete index. -/
theorem c2_results_from_index_witness :
    ([100, 200] : List Nat).length = ([7, 8] : List Nat).length ∧
    ([100, 200] : List Nat) ≠ [] ∧
    ∃ l, nearestNeighbors [(50, 150)] (fun _ => 3) [100, 200] [7, 8] = some l ∧
      ∀ r ∈ l, r.data ∈ ([7, 8] : List Nat) :=
  ⟨rfl, by decide,
    c2_results_from_index [(50, 150)] (fun _ => 3) [100, 200] [7, 8] rfl (by decide)⟩

/-- C3: on an index containing zero points, `nearest_neighbors` panics rather
than returning the empty result: for any covering cell, `binary_search`
over the empty cells array yields `Err(0)`, `saturating_sub(1)` keeps both
endpoints at 0, and the inclusive loop `0 ..= 0` immediately reads
`self.cells()[0]` out of bounds. -/
theorem c3_empty_index_panics :
    nearestNeighbors [(0, 5)] (fun _ => 0) [] [] = none := by
  decide

/-- C4: `push_edge` never writes `EDGE_LENGTH_TABLE` (no `lengths.insert`
exists in the crate), so the stored length is always absent, the
strictly-shorter guard never fires, and every parallel edge overwrites the
shape.  Pushing the edges `(0,1)` with lengths 5 m then 7 m leaves the
7 m shape in the store — the shape of the last, not the shortest, parallel
edge — while the length table stays empty. -/
theorem c4_longer_parallel_edge_overwrites_shape :
    tableGet (pushEdge (pushEdge ⟨[], []⟩ 0 1 5 [(0, 0), (1, 1)]).1 0 1 7
        [(0, 0), (2, 2)]).1.shapes (0, 1) = some [(0, 0), (2, 2)] ∧
    (pushEdge (pushEdge ⟨[], []⟩ 0 1 5 [(0, 0), (1, 1)]).1 0 1 7
        [(0, 0), (2, 2)]).1.lengths = [] ∧
    ¬((7 : ℚ) < 5) := by
  refine ⟨rfl, rfl, by norm_num⟩

/-- Helper: membership through stable insertion. -/
theorem mem_insertBy {α : Type} (le : α → α → Bool) (x : α) :
    ∀ (l : List α) (a : α), a ∈ insertBy le x l ↔ a = x ∨ a ∈ l := by
  intro l
  induction l with
  | nil => intro a; simp [insertBy]
  | cons y ys ih =>
    intro a
    rw [insertBy]
    split
    · simp [List.mem_cons]
    · simp only [List.mem_cons, ih]
      tauto

/-- Helper: the stable sort permutes its input (membership form). -/
theorem mem_insertionSortBy {α : Type} (le : α → α → Bool) :
    ∀ (l : List α) (a : α), a ∈ insertionSortBy le l ↔ a ∈ l := by
  intro l
  induction l with
  | nil => intro a; simp [insertionSortBy]
  | cons y ys ih =>
    intro a
    rw [insertionSortBy, mem_insertBy]
    simp [ih]

/-- Helper: inserting into a `le`-chain keeps it a chain when `le` is total. -/
theorem chain'_insertBy {α : Type} (le : α → α → Bool)
    (htot : ∀ a b, le a b = true ∨ le b a = true) (x : α) :
    ∀ (l : List α), List.Chain' (fun a b => le a b = true) l →
      List.Chain' (fun a b => le a b = true) (insertBy le x l) := by
  intro l
  induction l with
  | nil => intro _; simp [insertBy]
  | cons y ys ih =>
    intro h
    rw [insertBy]
    split
    · rename_i hxy
      exact List.chain'_cons.mpr ⟨hxy, h⟩
    · rename_i hxy
      have hyx : le y x = true := (htot x y).resolve_left hxy
      rw [List.chain'_cons']
      refine ⟨?_, ih (List.Chain'.tail h)⟩
      intro h' hh'
      cases ys with
      | nil =>
        simp [insertBy] at hh'
        subst hh'
        exact hyx
      | cons z zs =>
        rw [insertBy] at hh'
        split at hh'
        · simp at hh'
          subst hh'
          exact hyx
        · simp at hh'
          subst hh'
          exact (List.chain'_cons.mp h).1

/-- Helper: the stable sort output is a `le`-chain for total `le`. -/
theorem chain'_insertionSortBy {α : Type} (le : α → α → Bool)
    (htot : ∀ a b, le a b = true ∨ le b a = true) :
    ∀ (l : List α), List.Chain' (fun a b => le a b = true) (insertionSortBy le l) := by
  intro l
  induction l with
  | nil => simp [insertionSortBy]
  | cons y ys ih => exact chain'_insertBy le htot y _ ih

/-- Helper: totality of the Rust `Option` ordering. -/
theorem optIntLe_total (x y : Option Int) : optIntLe x y = true ∨ optIntLe y x = true := by
  cases x with
  | none => exact Or.inl rfl
  | some a =>
    cases y with
    | none => exact Or.inr rfl
    | some b =>
      simp only [optIntLe, decide_eq_true_eq]
      omega

/-- Helper: transitivity of the Rust `Option` ordering. -/
theorem optIntLe_trans (x y z : Option Int) (h1 : optIntLe x y = true)
    (h2 : optIntLe y z = true) : optIntLe x z = true := by
  cases x with
  | none => rfl
  | some a =>
    cases y with
    | none => simp [optIntLe] at h1
    | some b =>
      cases z with
      | none => simp [optIntLe] at h2
      | some c =>
        simp only [optIntLe, decide_eq_true_eq] at h1 h2 ⊢
        omega

/-- Helper: totality of the trip sort key comparison. -/
theorem tripLe_total (a b : TripInternal) : tripLe a b = true ∨ tripLe b a = true :=
  optIntLe_total a.getDeparture b.getDeparture

/-- Helper: transitivity of the trip sort key comparison. -/
theorem tripLe_trans (a b c : TripInternal) (h1 : tripLe a b = true)
    (h2 : tripLe b c = true) : tripLe a c = true :=
  optIntLe_trans a.getDeparture b.getDeparture c.getDeparture h1 h2

/-- Helper: when the sort key exists and the instant fits in u32, the
emitted first-stop departure is exactly the key. -/
theorem emitted_of_getDeparture (t : TripInternal) (k : Int)
    (h : t.getDeparture = some k) (h0 : 0 ≤ k) (h32 : k < 4294967296) :
    emittedFirstStopDeparture t = some k.toNat := by
  unfold TripInternal.getDeparture at h
  unfold emittedFirstStopDeparture
  split at h
  · simp at h
  · rename_i st hst
    split at h
    · simp at h
    · rename_i d hd
      split at h
      · simp at h
      · simp only [Option.some_inj] at h
        rw [hst]
        simp only [Option.map_some', hd, Option.getD_some]
        rw [h, Int.emod_eq_of_lt h0 h32]

/-- C6 counterexample: `tripA` (late service day, first departure absent)
sorts with key `None` before `tripB` (early day, departure present), but its
emitted u32 departure — `service_day_start + u32::MAX` truncated mod `2^32`,
i.e. `service_day_start - 1` — is the larger value, so the emitted
`route_trips` window is not sorted by stored departure at the first stop,
and the router's binary search over it is not well-defined. -/
theorem c6_first_departure_unsorted_counterexample :
    processRouteTripsFirstDepartures [tripB, tripA]
      = [some 1999999999, some 1000000100] ∧
    ¬(1999999999 ≤ 1000000100) := by
  constructor
  · rfl
  · decide

/-- C6 amended: when every trip of the route has a present first-stop
departure (not the `u32::MAX` sentinel) whose absolute instant fits in u32,
the emitted `route_trips` window is sorted in non-decreasing order of the
stored departure at the route's first stop. -/
theorem c6_sorted_when_departures_present (trips : List TripInternal)
    (h : ∀ t ∈ trips, ∃ k, t.getDeparture = some k ∧ 0 ≤ k ∧ k < 4294967296) :
    (∀ x ∈ processRouteTripsFirstDepartures trips, x.isSome) ∧
    List.Pairwise (fun a b : Option Nat => a.getD 0 ≤ b.getD 0)
      (processRouteTripsFirstDepartures trips) := by
  unfold processRouteTripsFirstDepartures
  have hmem : ∀ t ∈ insertionSortBy tripLe trips,
      ∃ k, t.getDeparture = some k ∧ 0 ≤ k ∧ k < 4294967296 :=
    fun t ht => h t ((mem_insertionSortBy tripLe trips t).mp ht)
  constructor
  · intro x hx
    obtain ⟨t, ht, rfl⟩ := List.mem_map.mp hx
    obtain ⟨k, hk, h0, h32⟩ := hmem t ht
    rw [emitted_of_getDeparture t k hk h0 h32]
    rfl
  · have hchain := chain'_insertionSortBy tripLe tripLe_total trips
    have hpair : List.Pairwise (fun a b => tripLe a b = true)
        (insertionSortBy tripLe trips) := by
      haveI : IsTrans TripInternal (fun a b => tripLe a b = true) := ⟨tripLe_trans⟩
      exact List.chain'_iff_pairwise.mp hchain
    rw [List.pairwise_map]
    refine List.Pairwise.imp_of_mem ?_ hpair
    intro t1 t2 h1 h2 hle
    obtain ⟨k1, hk1, h01, h321⟩ := hmem t1 h1
    obtain ⟨k2, hk2, h02, h322⟩ := hmem t2 h2
    rw [emitted_of_getDeparture t1 k1 hk1 h01 h321,
      emitted_of_getDeparture t2 k2 hk2 h02 h322]
    simp only [Option.getD_some]
    unfold tripLe optIntLe at hle
    rw [hk1, hk2] at hle
    simp at hle
    omega

/-- Witness for C6 (amended) on two trips with present departures on
different service days. -/
theorem c6_sorted_when_departures_present_witness :
    (∀ x ∈ processRouteTripsFirstDepartures [tripC, tripB], x.isSome) ∧
    List.Pairwise (fun a b : Option Nat => a.getD 0 ≤ b.getD 0)
      (processRouteTripsFirstDepartures [tripC, tripB]) :=
  c6_sorted_when_departures_present [tripC, tripB] (by
    intro t ht
    rcases List.mem_cons.mp ht with rfl | ht2
    · exact ⟨2000000050, rfl, by decide, by decide⟩
    · rcases List.mem_cons.mp ht2 with rfl | h3
      · exact ⟨1000000100, rfl, by decide, by decide⟩
      · simp at h3)

/-- C7 counterexample: with day 1 of `[0, 1, 2]` falling in a DST gap,
service-day expansion `bail!`s: the whole expansion returns an error and
day 2 — individually convertible, as shown — is not processed, contradicting
the claim that only the gap day fails while the remaining days are still
processed. -/
theorem c7_dst_gap_aborts_counterexample :
    expandTripDays exLocalNoon [0, 1, 2]
      = .error "Gap in time (at noon), cannot determine service day start" ∧
    serviceDayStart exLocalNoon 0 = .ok 956800 ∧
    serviceDayStart exLocalNoon 2 = .ok 2956800 :=
  ⟨rfl, rfl, rfl⟩

/-- C7 amended: on an ambiguous local noon (fall-back DST) the earlier
instant is chosen, as claimed; but on a nonexistent local time the `bail!`
makes the whole expansion (and hence the whole feed's preprocessing) return
an error instead of failing only that service day. -/
theorem c7_dst_handling :
    (∀ (localNoon : Nat → ChronoLocalResult) (day : Nat) (a b : Int),
      localNoon day = .ambiguous a b →
      serviceDayStart localNoon day = .ok (a - 43200)) ∧
    (∀ (localNoon : Nat → ChronoLocalResult) (days : List Nat) (day : Nat),
      day ∈ days → day ≤ 14 → localNoon day = .gap →
      ∃ e, expandTripDays localNoon days = .error e) := by
  constructor
  · intro localNoon day a b h
    simp [serviceDayStart, h]
  · intro localNoon days day hmem hle hgap
    unfold expandTripDays
    suffices hgen : ∀ (l : List Nat) (acc : List Int), day ∈ l →
        ∃ e, l.foldlM (fun acc day =>
          if day ≤ 14 then
            match serviceDayStart localNoon day with
            | .ok sds => Except.ok (acc ++ [sds])
            | .error e => Except.error e
          else .ok acc) acc = .error e by
      exact hgen days [] hmem
    intro l
    induction l with
    | nil => intro acc h; simp at h
    | cons d rest ih =>
      intro acc hmem2
      rw [List.foldlM_cons]
      rcases List.mem_cons.mp hmem2 with heq | hrest
      · subst heq
        rw [if_pos hle]
        rw [serviceDayStart, hgap]
        exact ⟨_, rfl⟩
      · by_cases hd : d ≤ 14
        · rw [if_pos hd]
          cases hsd : serviceDayStart localNoon d with
          | ok sds => exact ih (acc ++ [sds]) hrest
          | error e => exact ⟨e, rfl⟩
        · rw [if_neg hd]
          exact ih acc hrest

/-- Witness for C7 (amended): an ambiguous conversion picks the earlier
instant, and the example expansion with a gap day errors. -/
theorem c7_dst_handling_witness :
    serviceDayStart (fun _ => .ambiguous 500000 503600) 0 = .ok (500000 - 43200) ∧
    ∃ e, expandTripDays exLocalNoon [0, 1, 2] = .error e :=
  ⟨c7_dst_handling.1 (fun _ => .ambiguous 500000 503600) 0 500000 503600 rfl,
    c7_dst_handling.2 exLocalNoon [0, 1, 2] 1 (by decide) (by decide) rfl⟩

/-- C8 counterexample: with a matrix endpoint configured and the external
matrix service failing, the legacy `route` calls `.unwrap()` on the failed
request (src/src/route.rs line 113) and panics instead of returning a
response status or falling back to great-circle walks. -/
theorem c8_matrix_unwrap_panics_counterexample :
    routeTargetCosts (some "http") (.error "connection refused")
      [(0, 1)] = none := rfl

/-- C8 amended: the analytic path (no matrix endpoint configured) never
panics, while a configured endpoint whose matrix request fails always
panics via `unwrap`. -/
theorem c8_target_costs_behaviour :
    (∀ (r : Except String (List MatrixLineItem)) (stops : List (Nat × ℚ)),
      (routeTargetCosts none r stops).isSome) ∧
    (∀ (v e : String) (stops : List (Nat × ℚ)),
      routeTargetCosts (some v) (.error e) stops = none) :=
  ⟨fun _ _ => rfl, fun _ _ _ => rfl⟩
